import Mathlib

/- Shallow embedding of `packages/ts-plugin/src/index.ts`: a TypeScript
language-service plugin that wraps four host operations
(getSemanticDiagnostics, getCodeFixesAtPosition, getCompletionsAtPosition,
getCompletionEntryDetails) with token-grammar-aware post-processing.
The grammar codec imported from `@tokenami/config` is not under `src/`;
the plugin treats it as a black box, so the embedding is parametric in a
`Codec` record, with a concrete instance modelled from the spec used for
witnesses and counterexamples. -/

namespace TokenamiPlugin

def INVALID_SELECTOR_ERROR_CODE : Nat := 50000

def INVALID_VALUE_ERROR_CODE : Nat := 2322

/-- A theme value: `string | number` in the config's theme tables. -/
inductive ConfigValue where
  | str (s : String)
  | num (n : Int)
deriving DecidableEq

/-- JavaScript truthiness of a theme value: the empty string and zero are falsy. -/
def ConfigValue.truthy : ConfigValue → Bool
  | .str s => s != ""
  | .num n => n != 0

/-- JavaScript `String(v)` applied to a theme value. -/
def ConfigValue.displayString : ConfigValue → String
  | .str s => s
  | .num n => toString n

def lookupAssoc {α : Type} (l : List (String × α)) (k : String) : Option α :=
  (l.find? (fun p => p.1 == k)).map (fun p => p.2)

/-- The `Config` consumed by the plugin: theme tables, responsive variant
descriptions, and the selector names the property grammar may reference. -/
structure Config where
  theme : List (String × List (String × ConfigValue))
  responsive : List (String × String)
  selectors : List String
deriving DecidableEq

/-- `config.theme[themeKey]?.[token]` -/
def Config.themeLookup (c : Config) (themeKey token : String) : Option ConfigValue :=
  match lookupAssoc c.theme themeKey with
  | some tbl => lookupAssoc tbl token
  | none => none

/-- Decoded token-property parts (`getTokenPropertyParts` result). -/
structure PropertyParts where
  selector : Option String
  responsive : Option String
  cssProperty : String
deriving DecidableEq

/-- Decoded token-value parts (`getTokenValueParts` result). -/
structure ValueParts where
  themeKey : String
  token : String
deriving DecidableEq

/-- The grammar codec from `@tokenami/config`, kept abstract: the plugin only
calls these five operations. `safeParse(x).success` is a Bool; the decoders
return an absent result on failure. -/
structure Codec where
  tokenPropertySafeParse : String → Bool
  getTokenPropertyParts : String → Config → Option PropertyParts
  tokenValueSafeParse : String → Bool
  getTokenValueParts : String → Option ValueParts
  arbitraryValue : String → String

/-- A source-tree node. `strLit` carries both the cooked text (`.text`) and the
raw source slice (`.getText()`). A property assignment's children are its name
and its value, in that order, as `ts.forEachChild` yields them. -/
inductive Node where
  | propAssign (start stop : Nat) (name value : Node)
  | strLit (start stop : Nat) (text raw : String)
  | plain (start stop : Nat) (children : List Node)

def Node.getStart : Node → Nat
  | .propAssign s _ _ _ => s
  | .strLit s _ _ _ => s
  | .plain s _ _ => s

def Node.getEnd : Node → Nat
  | .propAssign _ e _ _ => e
  | .strLit _ e _ _ => e
  | .plain _ e _ => e

def Node.getWidth (n : Node) : Nat := n.getEnd - n.getStart

def Node.isPropertyAssignment : Node → Bool
  | .propAssign _ _ _ _ => true
  | _ => false

def Node.isStringLiteral : Node → Bool
  | .strLit _ _ _ _ => true
  | _ => false

/-- `ts.isStringLiteral(n) ? n.text : null` -/
def Node.litText : Node → Option String
  | .strLit _ _ t _ => some t
  | _ => none

/-- `n.getText()`; the plugin only calls it on string-literal nodes. -/
def Node.getText : Node → String
  | .strLit _ _ _ raw => raw
  | _ => ""

def Node.childNodes : Node → List Node
  | .propAssign _ _ nm v => [nm, v]
  | .strLit _ _ _ _ => []
  | .plain _ _ cs => cs

inductive DiagnosticCategory where
  | warning
  | error
  | suggestion
  | message
deriving DecidableEq

/-- A `ts.Diagnostic` restricted to the fields the plugin reads or writes. -/
structure Diagnostic where
  file : Option Node
  start : Option Nat
  length : Option Nat
  messageText : String
  category : DiagnosticCategory
  code : Nat

/-- The body of the `visit` callback of `getSemanticDiagnostics` for one node:
possibly appends the selector-not-found diagnostic and possibly rewrites the
message of the first invalid-value diagnostic located at the node's start. -/
def diagStep (codec : Codec) (config : Config) (sourceFile node : Node)
    (original : List Diagnostic) : List Diagnostic :=
  match node with
  | .propAssign s e nm v =>
    match nm.litText with
    | some property =>
      if codec.tokenPropertySafeParse property then
        let parts := codec.getTokenPropertyParts property config
        let afterAppend :=
          if parts.isNone then
            original ++
              [{ file := some sourceFile,
                 start := some s,
                 length := some (e - s),
                 messageText := "Invalid property '" ++ property ++
                   "'. Selector not found in theme.",
                 category := .error,
                 code := INVALID_SELECTOR_ERROR_CODE }]
          else original
        match afterAppend.findIdx?
            (fun d => d.code == INVALID_VALUE_ERROR_CODE && d.start == some s) with
        | some i =>
          let messageText :=
            match v.litText with
            | some tv =>
              if tv == "" then
                "Grid values are not assignable to '" ++ property ++ "'."
              else
                "Value '" ++ tv ++ "' is not assignable to '" ++ property ++
                  "'. Use theme value or mark arbitrary with '" ++
                  codec.arbitraryValue tv ++ "'"
            | none => "Grid values are not assignable to '" ++ property ++ "'."
          List.modify (fun d => { d with messageText := messageText }) i afterAppend
        | none => afterAppend
      else original
    | none => original
  | _ => original

mutual

/-- The recursive `visit` of `getSemanticDiagnostics`: process the node, then
its children, threading the diagnostic list being mutated. -/
def visitNode (codec : Codec) (config : Config) (sourceFile : Node)
    (acc : List Diagnostic) : Node → List Diagnostic
  | .propAssign s e nm v =>
    visitNode codec config sourceFile
      (visitNode codec config sourceFile
        (diagStep codec config sourceFile (.propAssign s e nm v) acc) nm) v
  | .strLit s e t r => diagStep codec config sourceFile (.strLit s e t r) acc
  | .plain s e cs =>
    visitNodeList codec config sourceFile
      (diagStep codec config sourceFile (.plain s e cs) acc) cs

def visitNodeList (codec : Codec) (config : Config) (sourceFile : Node)
    (acc : List Diagnostic) : List Node → List Diagnostic
  | [] => acc
  | n :: ns =>
    visitNodeList codec config sourceFile
      (visitNode codec config sourceFile acc n) ns

end

structure TokenConfigEntry where
  themeKey : String
  tokenValue : ConfigValue
deriving DecidableEq

/-- The session cache `tokenConfigMap`, as an insertion-ordered map:
`Map.set` overwrites in place or appends. -/
abbrev TokenMap := List (String × TokenConfigEntry)

def mapSet (m : TokenMap) (k : String) (v : TokenConfigEntry) : TokenMap :=
  if m.any (fun p => p.1 == k) then
    m.map (fun p => if p.1 == k then (k, v) else p)
  else m ++ [(k, v)]

def mapGet (m : TokenMap) (k : String) : Option TokenConfigEntry :=
  (m.find? (fun p => p.1 == k)).map (fun p => p.2)

structure LabelDetails where
  detail : String
  description : String
deriving DecidableEq

/-- A completion entry restricted to the fields the plugin reads or writes. -/
structure CompletionEntry where
  name : String
  sortText : String
  kindModifiers : Option String
  insertText : Option String
  labelDetails : Option LabelDetails
deriving DecidableEq

/-- The body of the `entries.map` callback of `getCompletionsAtPosition` for a
single entry, threading the session cache it may mutate. -/
def processEntry (codec : Codec) (config : Config) (m : TokenMap)
    (entry : CompletionEntry) : TokenMap × CompletionEntry :=
  let entryName := entry.name
  let entry1 := { entry with sortText := entryName }
  let entry2 :=
    if codec.tokenPropertySafeParse entryName then
      let parts := codec.getTokenPropertyParts entryName config
      let description : Option String :=
        match parts with
        | some p =>
          match p.responsive with
          | some r => if r == "" then none else lookupAssoc config.responsive r
          | none => none
        | none => none
      let entryM := { entry1 with sortText := "$" ++ entryName }
      match description with
      | some d =>
        if d == "" then entryM
        else { entryM with labelDetails := some { detail := "", description := d } }
      | none => entryM
    else entry1
  if codec.tokenValueSafeParse entryName then
    match codec.getTokenValueParts entryName with
    | some parts =>
      match config.themeLookup parts.themeKey parts.token with
      | some tokenValue =>
        if tokenValue.truthy then
          (mapSet m parts.token { themeKey := parts.themeKey, tokenValue := tokenValue },
           { entry2 with
               name := "$" ++ parts.token,
               kindModifiers := some parts.themeKey,
               insertText := some entryName,
               labelDetails := some { detail := "", description := entryName } })
        else (m, entry2)
      | none => (m, entry2)
    | none => (m, entry2)
  else (m, entry2)

structure SymbolDisplayPart where
  text : String
  kind : String
deriving DecidableEq

/-- A completion-entry detail record restricted to the fields the plugin
synthesizes (`ts.ScriptElementKind.string` is the string `"string"`). -/
structure CompletionEntryDetails where
  name : String
  kind : String
  kindModifiers : String
  displayParts : List SymbolDisplayPart
deriving DecidableEq

/-- JavaScript `s.split(sep)` for a single-character separator, on char lists. -/
def splitChar (sep : Char) : List Char → List (List Char)
  | [] => [[]]
  | c :: rest =>
    match splitChar sep rest with
    | [] => [[c]]
    | s :: ss => if c = sep then [] :: s :: ss else (c :: s) :: ss

/-- `entryName.split('$')` -/
def splitEntryName (entryName : String) : List String :=
  (splitChar '$' entryName.data).map (fun l => String.mk l)

/-- The post-processing of `getCompletionEntryDetails` given the host's result:
`const [, token] = entryName.split('$')`, a truthiness-guarded cache lookup,
and full replacement of the host's record on a hit. -/
def detailsStep (m : TokenMap) (entryName : String)
    (original : Option CompletionEntryDetails) : Option CompletionEntryDetails :=
  let token := (splitEntryName entryName)[1]?
  let entryConfig :=
    match token with
    | some t => if t == "" then none else mapGet m t
    | none => none
  match entryConfig with
  | none => original
  | some ec =>
    some { name := entryName,
           kind := "string",
           kindModifiers := ec.themeKey,
           displayParts := [{ text := ec.tokenValue.displayString, kind := "markdown" }] }

structure TextSpan where
  start : Nat
  length : Nat
deriving DecidableEq

structure TextChange where
  span : TextSpan
  newText : String
deriving DecidableEq

structure FileTextChanges where
  fileName : String
  textChanges : List TextChange
deriving DecidableEq

structure CodeFixAction where
  description : String
  fixName : String
  changes : List FileTextChanges
deriving DecidableEq

def createTextSpanFromNode (node : Node) : TextSpan :=
  { start := node.getStart, length := node.getEnd - node.getStart }

mutual

/-- The recursive `find` of `findNodeAtPosition`, also yielding the parent
(the node recursed from) of the node found, as `node.parent` would. -/
def findFrom (pos : Nat) (parent : Option Node) : Node → Option (Node × Option Node)
  | .propAssign s e nm v =>
    if s ≤ pos ∧ pos < e then
      (((findFrom pos (some (.propAssign s e nm v)) nm).orElse
          (fun _ => findFrom pos (some (.propAssign s e nm v)) v)).orElse
        (fun _ => some (.propAssign s e nm v, parent)))
    else none
  | .strLit s e t r =>
    if s ≤ pos ∧ pos < e then some (.strLit s e t r, parent) else none
  | .plain s e cs =>
    if s ≤ pos ∧ pos < e then
      ((findList pos (some (.plain s e cs)) cs).orElse
        (fun _ => some (.plain s e cs, parent)))
    else none

/-- `ts.forEachChild(node, find)`: the first child on which `find` succeeds. -/
def findList (pos : Nat) (parent : Option Node) : List Node → Option (Node × Option Node)
  | [] => none
  | n :: ns => (findFrom pos parent n).orElse (fun _ => findList pos parent ns)

end

def findNodeAtPosition (sourceFile : Node) (position : Nat) : Option (Node × Option Node) :=
  findFrom position none sourceFile

/-- `c` is in the character class of `/[\w\d_-]/` (JavaScript `\w` is ASCII). -/
def isWordChar (c : Char) : Bool :=
  c.isAlpha || c.isDigit || c = '_' || c = '-'

def isQuoteChar (c : Char) : Bool :=
  c = '\'' || c = '"'

/-- The decomposition found by `/^('|")?[\w\d_-]+('|")?$/`: an optional leading
quote, a nonempty run of word characters, an optional trailing quote. Quotes
are not word characters, so the decomposition is unique and the optional
groups can be committed greedily without backtracking. -/
def wordShapeSplit (s : String) : Option (List Char × List Char × List Char) :=
  let cs := s.data
  let p1 : List Char × List Char :=
    match cs with
    | c :: tl => if isQuoteChar c then ([c], tl) else ([], cs)
    | [] => ([], [])
  let p2 : List Char × List Char :=
    match p1.2.reverse with
    | c :: tl => if isQuoteChar c then (tl.reverse, [c]) else (p1.2, [])
    | [] => (p1.2, [])
  if p2.1 ≠ [] ∧ p2.1.all isWordChar then some (p1.1, p2.1, p2.2) else none

/-- `originalText.replace(/^('|")?[\w\d_-]+('|")?$/, "$1" + replacement + "$2")`:
on a match the word run is replaced and the captured quotes kept; otherwise
the text is returned unmodified. -/
def wordShapeReplace (s replacement : String) : String :=
  match wordShapeSplit s with
  | some q => String.mk (q.1 ++ replacement.data ++ q.2.2)
  | none => s

/-- The host language service, restricted to the operations the plugin
intercepts plus the program's source-file accessor. -/
structure HostService where
  getSemanticDiagnostics : String → List Diagnostic
  getSourceFile : String → Option Node
  getCodeFixesAtPosition : String → Nat → Nat → List Nat → List CodeFixAction
  getCompletionsAtPosition : String → Nat → Option (List CompletionEntry)
  getCompletionEntryDetails : String → Nat → String → Option CompletionEntryDetails

/-- `proxy.getSemanticDiagnostics` when a config was found. -/
def tokenamiGetSemanticDiagnostics (codec : Codec) (config : Config)
    (host : HostService) (fileName : String) : List Diagnostic :=
  let original := host.getSemanticDiagnostics fileName
  match host.getSourceFile fileName with
  | some sourceFile => visitNodeList codec config sourceFile original sourceFile.childNodes
  | none => original

/-- `proxy.getCodeFixesAtPosition` when a config was found. -/
def tokenamiGetCodeFixesAtPosition (codec : Codec) (host : HostService)
    (fileName : String) (start stop : Nat) (errorCodes : List Nat) : List CodeFixAction :=
  let original := host.getCodeFixesAtPosition fileName start stop errorCodes
  if errorCodes.contains INVALID_VALUE_ERROR_CODE then
    match host.getSourceFile fileName with
    | some sourceFile =>
      match findNodeAtPosition sourceFile start with
      | some np =>
        match np.2 with
        | some (.propAssign _ps _pe _nm v) =>
          let valueSpan := createTextSpanFromNode v
          match v.litText with
          | some text =>
            if text != "" then
              let arbitraryText := wordShapeReplace v.getText (codec.arbitraryValue text)
              [{ description := "Use " ++ arbitraryText ++ " to mark as arbitrary",
                 fixName := "replaceWithArbitrary",
                 changes := [{ fileName := fileName,
                               textChanges := [{ span := valueSpan, newText := arbitraryText }] }] }]
            else original
          | none => original
        | _ => original
      | none => original
    | none => original
  else original

/-- `proxy.getCompletionsAtPosition` when a config was found, threading the
session cache through the entry-by-entry rewrite. -/
def tokenamiGetCompletionsAtPosition (codec : Codec) (config : Config)
    (host : HostService) (m : TokenMap) (fileName : String) (position : Nat) :
    TokenMap × Option (List CompletionEntry) :=
  match host.getCompletionsAtPosition fileName position with
  | none => (m, none)
  | some entries =>
    let r := entries.foldl
      (fun acc e =>
        let p := processEntry codec config acc.1 e
        (p.1, acc.2 ++ [p.2]))
      (m, ([] : List CompletionEntry))
    (r.1, some r.2)

/-- `proxy.getCompletionEntryDetails` when a config was found. -/
def tokenamiGetCompletionEntryDetails (host : HostService) (m : TokenMap)
    (fileName : String) (position : Nat) (entryName : String) :
    Option CompletionEntryDetails :=
  detailsStep m entryName (host.getCompletionEntryDetails fileName position entryName)

/-- The wrapper returned by `create`, with the session cache made explicit:
every operation takes the cache and returns the cache it leaves behind. -/
structure PluginService where
  getSemanticDiagnostics : TokenMap → String → TokenMap × List Diagnostic
  getCodeFixesAtPosition : TokenMap → String → Nat → Nat → List Nat → TokenMap × List CodeFixAction
  getCompletionsAtPosition : TokenMap → String → Nat → TokenMap × Option (List CompletionEntry)
  getCompletionEntryDetails : TokenMap → String → Nat → String → TokenMap × Option CompletionEntryDetails

/-- `new Map()` at plugin construction. -/
def emptyTokenConfigMap : TokenMap := []

/-- The `create` factory: build the pass-through proxy; if no config file
exists return it as is, otherwise install the four overrides. -/
def create (host : HostService) (codec : Codec) (configExists : Bool)
    (config : Config) : PluginService :=
  let proxy : PluginService :=
    { getSemanticDiagnostics := fun m fileName => (m, host.getSemanticDiagnostics fileName),
      getCodeFixesAtPosition := fun m fileName start stop errorCodes =>
        (m, host.getCodeFixesAtPosition fileName start stop errorCodes),
      getCompletionsAtPosition := fun m fileName position =>
        (m, host.getCompletionsAtPosition fileName position),
      getCompletionEntryDetails := fun m fileName position entryName =>
        (m, host.getCompletionEntryDetails fileName position entryName) }
  if configExists then
    { getSemanticDiagnostics := fun m fileName =>
        (m, tokenamiGetSemanticDiagnostics codec config host fileName),
      getCodeFixesAtPosition := fun m fileName start stop errorCodes =>
        (m, tokenamiGetCodeFixesAtPosition codec host fileName start stop errorCodes),
      getCompletionsAtPosition := fun m fileName position =>
        tokenamiGetCompletionsAtPosition codec config host m fileName position,
      getCompletionEntryDetails := fun m fileName position entryName =>
        (m, tokenamiGetCompletionEntryDetails host m fileName position entryName) }
  else proxy

/-! A concrete codec instance for witnesses and counterexamples. The grammar
codec lives in `@tokenami/config`, which is not under `src/`, so it is
modelled from the spec (section 4.1 and the examples of section 8). -/

/-- Modelled from the spec: `isTokenPropertyName`, the structural predicate of
the Grammar Codec (not under src/). Candidate property names are
`cssProperty` or `cssProperty$variant` with nonempty parts; per section 8,
`"ai$sm"` is a candidate. -/
def specTokenPropertySafeParse (s : String) : Bool :=
  match (splitChar '$' s.data).map (fun l => String.mk l) with
  | [css] => css != ""
  | [css, v] => css != "" && v != ""
  | _ => false

/-- Modelled from the spec: `decodeTokenProperty` of the Grammar Codec (not
under src/). Returns absent exactly when the name encodes a selector not
present in the config (section 4.1); a trailing `$variant` part is a
responsive variant when listed in `config.responsive`, otherwise a selector
that must be listed in `config.selectors`. -/
def specGetTokenPropertyParts (s : String) (config : Config) : Option PropertyParts :=
  match (splitChar '$' s.data).map (fun l => String.mk l) with
  | [css] =>
    if css != "" then some { selector := none, responsive := none, cssProperty := css }
    else none
  | [css, v] =>
    if css != "" && v != "" then
      if (lookupAssoc config.responsive v).isSome then
        some { selector := none, responsive := some v, cssProperty := css }
      else if config.selectors.contains v then
        some { selector := some v, responsive := none, cssProperty := css }
      else none
    else none
  | _ => none

/-- Modelled from the spec: `decodeTokenValue` of the Grammar Codec (not under
src/). Token-value names have the shape `$themeKey-token` (section 8:
`"$blue"` stands for theme key `color`, token `blue`; the full encoded name
carries both parts). -/
def specGetTokenValueParts (s : String) : Option ValueParts :=
  match (splitChar '$' s.data).map (fun l => String.mk l) with
  | ["", rest] =>
    match (splitChar '-' rest.data).map (fun l => String.mk l) with
    | [tk, tok] => if tk != "" && tok != "" then some { themeKey := tk, token := tok } else none
    | _ => none
  | _ => none

/-- Modelled from the spec: `isTokenValueName` of the Grammar Codec (not under
src/), the structural predicate matching the decoder's domain. -/
def specTokenValueSafeParse (s : String) : Bool :=
  (specGetTokenValueParts s).isSome

/-- Modelled from the spec: `encodeArbitraryValue` of the Grammar Codec (not
under src/), a deterministic transform marking a literal as arbitrary. -/
def specArbitraryValue (v : String) : String :=
  "var(---," ++ v ++ ")"

def specCodec : Codec :=
  { tokenPropertySafeParse := specTokenPropertySafeParse,
    getTokenPropertyParts := specGetTokenPropertyParts,
    tokenValueSafeParse := specTokenValueSafeParse,
    getTokenValueParts := specGetTokenValueParts,
    arbitraryValue := specArbitraryValue }

/-! Helper lemmas. -/

theorem modify_append_left {α : Type} (f : α → α) (l r : List α) (i : Nat)
    (h : i < l.length) :
    List.modify f i (l ++ r) = List.modify f i l ++ r := by
  apply List.ext_getElem?
  intro n
  rw [List.getElem?_modify, List.getElem?_append, List.getElem?_append,
    List.length_modify]
  by_cases hn : n < l.length
  · rw [if_pos hn, if_pos hn, List.getElem?_modify]
  · rw [if_neg hn, if_neg hn]
    have hin : i ≠ n := by omega
    cases hr : r[n - l.length]? <;> simp [hr, hin]

theorem findIdx?_append_singleton_of_false {α : Type} (p : α → Bool) (d : α)
    (l : List α) (hd : p d = false) :
    (l ++ [d]).findIdx? p = l.findIdx? p := by
  rw [List.findIdx?_append]
  simp [List.findIdx?, hd]

theorem findIdx?_lt_length {α : Type} {p : α → Bool} {l : List α} {i : Nat}
    (h : l.findIdx? p = some i) : i < l.length :=
  (List.findIdx?_eq_some_iff_findIdx_eq.mp h).1

theorem find?_map_overwrite (k : String) (v : TokenConfigEntry) :
    ∀ m : TokenMap, m.any (fun p => p.1 == k) = true →
      (m.map (fun p => if p.1 == k then (k, v) else p)).find? (fun p => p.1 == k)
        = some (k, v) := by
  intro m
  induction m with
  | nil => intro h; simp at h
  | cons a m ih =>
    intro h
    cases hk : (a.1 == k) with
    | true =>
      rw [List.map_cons, if_pos hk, List.find?_cons_of_pos _ (by simp)]
    | false =>
      have hm : m.any (fun p => p.1 == k) = true := by
        simpa [List.any_cons, hk] using h
      rw [List.map_cons, if_neg (by simp [hk]),
        List.find?_cons_of_neg _ (by simp [hk])]
      exact ih hm

theorem find?_append_new (k : String) (v : TokenConfigEntry) :
    ∀ m : TokenMap, m.any (fun p => p.1 == k) = false →
      (m ++ [(k, v)]).find? (fun p => p.1 == k) = some (k, v) := by
  intro m
  induction m with
  | nil => simp [List.find?]
  | cons a m ih =>
    intro h
    have hk : (a.1 == k) = false := by
      cases hk : (a.1 == k) with
      | true => simp [List.any_cons, hk] at h
      | false => rfl
    have hm : m.any (fun p => p.1 == k) = false := by
      simpa [List.any_cons, hk] using h
    rw [List.cons_append, List.find?_cons_of_neg _ (by simp [hk])]
    exact ih hm

theorem mapGet_mapSet_self (m : TokenMap) (k : String) (v : TokenConfigEntry) :
    mapGet (mapSet m k v) k = some v := by
  unfold mapSet mapGet
  cases hany : m.any (fun p => p.1 == k) with
  | true => rw [if_pos rfl, find?_map_overwrite k v m hany]; rfl
  | false => rw [if_neg (by simp), find?_append_new k v m hany]; rfl

theorem keys_mapSet (m : TokenMap) (k : String) (v : TokenConfigEntry) (k2 : String)
    (h : k2 ∈ m.map Prod.fst) : k2 ∈ (mapSet m k v).map Prod.fst := by
  unfold mapSet
  cases hany : m.any (fun p => p.1 == k) with
  | true =>
    rw [if_pos rfl, List.map_map]
    have hfun : (Prod.fst ∘ fun p : String × TokenConfigEntry =>
        if p.1 == k then (k, v) else p) = Prod.fst := by
      funext p
      simp only [Function.comp_apply]
      cases hk : (p.1 == k) with
      | true => simp [hk, (eq_of_beq hk).symm]
      | false => simp [hk]
    rw [hfun]
    exact h
  | false =>
    rw [if_neg (by simp)]
    simp only [List.map_append]
    exact List.mem_append_left _ h

theorem processEntry_fst_cases (codec : Codec) (config : Config) (m : TokenMap)
    (entry : CompletionEntry) :
    (processEntry codec config m entry).1 = m ∨
    ∃ k v, (processEntry codec config m entry).1 = mapSet m k v := by
  unfold processEntry
  cases hvp : codec.tokenValueSafeParse entry.name with
  | false => simp [hvp]
  | true =>
    cases hparts : codec.getTokenValueParts entry.name with
    | none => simp [hvp, hparts]
    | some parts =>
      cases hl : config.themeLookup parts.themeKey parts.token with
      | none => simp [hvp, hparts, hl]
      | some tv =>
        cases ht : tv.truthy with
        | false => simp [hvp, hparts, hl, ht]
        | true =>
          simp only [hvp, hparts, hl, ht]
          exact Or.inr ⟨parts.token, { themeKey := parts.themeKey, tokenValue := tv }, by simp⟩

/-! Theorems for the claims. -/

/-- C2: when no config file exists at the resolved path, each of the four
intercepted operations returns, for every input, a result identical to
calling the host's corresponding operation directly (and leaves the session
cache untouched). -/
theorem c2_no_config_pass_through (host : HostService) (codec : Codec) (config : Config)
    (m : TokenMap) (fileName entryName : String) (start stop position : Nat)
    (errorCodes : List Nat) :
    (create host codec false config).getSemanticDiagnostics m fileName
        = (m, host.getSemanticDiagnostics fileName)
    ∧ (create host codec false config).getCodeFixesAtPosition m fileName start stop errorCodes
        = (m, host.getCodeFixesAtPosition fileName start stop errorCodes)
    ∧ (create host codec false config).getCompletionsAtPosition m fileName position
        = (m, host.getCompletionsAtPosition fileName position)
    ∧ (create host codec false config).getCompletionEntryDetails m fileName position entryName
        = (m, host.getCompletionEntryDetails fileName position entryName) :=
  ⟨rfl, rfl, rfl, rfl⟩

theorem completions_fold_keys (codec : Codec) (config : Config) (k : String) :
    ∀ (entries : List CompletionEntry) (m : TokenMap) (acc : List CompletionEntry),
      k ∈ m.map Prod.fst →
      k ∈ ((entries.foldl
              (fun acc2 e =>
                let p := processEntry codec config acc2.1 e
                (p.1, acc2.2 ++ [p.2]))
              (m, acc)).1).map Prod.fst := by
  intro entries
  induction entries with
  | nil => intro m acc h; simpa using h
  | cons e es ih =>
    intro m acc h
    rw [List.foldl_cons]
    apply ih
    rcases processEntry_fst_cases codec config m e with hc | ⟨k2, v2, hc⟩
    · show k ∈ ((processEntry codec config m e).1).map Prod.fst
      rwa [hc]
    · show k ∈ ((processEntry codec config m e).1).map Prod.fst
      rw [hc]
      exact keys_mapSet m k2 v2 k h

/-- C8: the session cache is created empty at plugin initialization; the key
set of the cache only grows: the diagnostics, code-fix and detail operations
leave it untouched, and the completions operation never removes a key. -/
theorem c8_cache_only_grows (host : HostService) (codec : Codec) (config : Config)
    (m : TokenMap) (fileName entryName : String) (start stop position : Nat)
    (errorCodes : List Nat) (k : String) :
    emptyTokenConfigMap = []
    ∧ ((create host codec true config).getSemanticDiagnostics m fileName).1 = m
    ∧ ((create host codec true config).getCodeFixesAtPosition m fileName start stop errorCodes).1 = m
    ∧ ((create host codec true config).getCompletionEntryDetails m fileName position entryName).1 = m
    ∧ (k ∈ m.map Prod.fst →
        k ∈ (((create host codec true config).getCompletionsAtPosition m fileName position).1).map
          Prod.fst) := by
  refine ⟨rfl, rfl, rfl, rfl, ?_⟩
  intro h
  show k ∈ ((tokenamiGetCompletionsAtPosition codec config host m fileName position).1).map Prod.fst
  unfold tokenamiGetCompletionsAtPosition
  cases hopt : host.getCompletionsAtPosition fileName position with
  | none => simpa using h
  | some entries => exact completions_fold_keys codec config k entries m [] h

/-- C8 witness: a cached key survives a completions call that processes a
further token-value entry. -/
theorem c8_cache_only_grows_witness :
    "blue" ∈ ([("blue", { themeKey := "color", tokenValue := .str "#00f" })] : TokenMap).map Prod.fst
    ∧ "blue" ∈ (((create
          { getSemanticDiagnostics := fun _ => [],
            getSourceFile := fun _ => none,
            getCodeFixesAtPosition := fun _ _ _ _ => [],
            getCompletionsAtPosition := fun _ _ => some
              [{ name := "$color-red", sortText := "", kindModifiers := none,
                 insertText := none, labelDetails := none }],
            getCompletionEntryDetails := fun _ _ _ => none }
          specCodec true
          { theme := [("color", [("red", .str "#f00")])], responsive := [], selectors := [] }).getCompletionsAtPosition
        [("blue", { themeKey := "color", tokenValue := .str "#00f" })] "f.ts" 0).1).map Prod.fst :=
  ⟨by simp, (c8_cache_only_grows
      { getSemanticDiagnostics := fun _ => [],
        getSourceFile := fun _ => none,
        getCodeFixesAtPosition := fun _ _ _ _ => [],
        getCompletionsAtPosition := fun _ _ => some
          [{ name := "$color-red", sortText := "", kindModifiers := none,
             insertText := none, labelDetails := none }],
        getCompletionEntryDetails := fun _ _ _ => none }
      specCodec
      { theme := [("color", [("red", .str "#f00")])], responsive := [], selectors := [] }
      [("blue", { themeKey := "color", tokenValue := .str "#00f" })]
      "f.ts" "x" 0 0 0 [] "blue").2.2.2.2 (by simp)⟩

theorem splitChar_ne_nil (sep : Char) (cs : List Char) : splitChar sep cs ≠ [] := by
  induction cs with
  | nil => simp [splitChar]
  | cons c cs ih =>
    simp only [splitChar]
    cases h : splitChar sep cs with
    | nil => simp
    | cons s ss => by_cases hc : c = sep <;> simp [hc]

theorem splitChar_not_mem (sep : Char) (cs : List Char) (h : sep ∉ cs) :
    splitChar sep cs = [cs] := by
  induction cs with
  | nil => rfl
  | cons c cs ih =>
    have hc : ¬ c = sep := by rintro rfl; exact h (List.mem_cons_self _ _)
    have hcs : sep ∉ cs := fun hm => h (List.mem_cons_of_mem c hm)
    simp only [splitChar, ih hcs]
    simp [hc]

theorem splitChar_append_sep (sep : Char) (pre rest : List Char) (h : sep ∉ pre) :
    splitChar sep (pre ++ sep :: rest) = pre :: splitChar sep rest := by
  induction pre with
  | nil =>
    simp only [List.nil_append, splitChar]
    cases hr : splitChar sep rest with
    | nil => exact absurd hr (splitChar_ne_nil sep rest)
    | cons s ss => simp
  | cons c pre ih =>
    have hc : ¬ c = sep := by rintro rfl; exact h (List.mem_cons_self _ _)
    have hpre : sep ∉ pre := fun hm => h (List.mem_cons_of_mem c hm)
    simp only [List.cons_append, splitChar, List.append_eq]
    rw [ih hpre]
    simp [hc]

theorem mk_data (s : String) : String.mk s.data = s := rfl

theorem splitEntryName_no_dollar (s : String) (h : '$' ∉ s.data) :
    splitEntryName s = [s] := by
  unfold splitEntryName
  rw [splitChar_not_mem '$' s.data h]
  simp [mk_data]

theorem splitEntryName_two_sep (pre mid post : String)
    (h1 : '$' ∉ pre.data) (h2 : '$' ∉ mid.data) :
    splitEntryName (pre ++ "$" ++ mid ++ "$" ++ post)
      = pre :: mid :: splitEntryName post := by
  unfold splitEntryName
  have hdata : (pre ++ "$" ++ mid ++ "$" ++ post).data
      = pre.data ++ '$' :: (mid.data ++ '$' :: post.data) := by
    simp [String.data_append]
  rw [hdata, splitChar_append_sep '$' pre.data _ h1,
    splitChar_append_sep '$' mid.data _ h2]
  simp [mk_data]

/-- C10: the short token `getCompletionEntryDetails` looks up is element 1 of
`entryName.split('$')`: with no `'$'` in the name the host's result is
returned unchanged; with at least two `'$'` separators the looked-up token is
the segment between the first and second `'$'`, and whenever that (nonempty)
segment is a cached token the synthesized replacement is returned, whether or
not the entry was ever a token value. -/
theorem c10_details_token_extraction (m : TokenMap)
    (original : Option CompletionEntryDetails)
    (entryName pre mid post : String) (ec : TokenConfigEntry) :
    ('$' ∉ entryName.data → detailsStep m entryName original = original)
    ∧ ('$' ∉ pre.data → '$' ∉ mid.data →
        (splitEntryName (pre ++ "$" ++ mid ++ "$" ++ post))[1]? = some mid)
    ∧ ('$' ∉ pre.data → '$' ∉ mid.data → mid ≠ "" → mapGet m mid = some ec →
        detailsStep m (pre ++ "$" ++ mid ++ "$" ++ post) original
          = some { name := pre ++ "$" ++ mid ++ "$" ++ post, kind := "string",
                   kindModifiers := ec.themeKey,
                   displayParts := [{ text := ec.tokenValue.displayString,
                                      kind := "markdown" }] }) := by
  refine ⟨?_, ?_, ?_⟩
  · intro h
    unfold detailsStep
    rw [splitEntryName_no_dollar entryName h]
    rfl
  · intro h1 h2
    rw [splitEntryName_two_sep pre mid post h1 h2]
    simp
  · intro h1 h2 h3 h4
    unfold detailsStep
    rw [splitEntryName_two_sep pre mid post h1 h2]
    have hbeq : (mid == "") = false := by
      simpa using h3
    simp only [List.getElem?_cons_succ, List.getElem?_cons_zero, hbeq, h4]
    rfl

/-- C10 witness: a name without `'$'` passes through; the token-property-shaped
name `ai$sm$x` hits the cache entry for `sm` and is replaced. -/
theorem c10_details_token_extraction_witness :
    detailsStep [("sm", { themeKey := "color", tokenValue := .str "#00f" })] "nodollar"
        (some { name := "orig", kind := "k", kindModifiers := "", displayParts := [] })
      = some { name := "orig", kind := "k", kindModifiers := "", displayParts := [] }
    ∧ detailsStep [("sm", { themeKey := "color", tokenValue := .str "#00f" })]
        ("ai" ++ "$" ++ "sm" ++ "$" ++ "x")
        (some { name := "orig", kind := "k", kindModifiers := "", displayParts := [] })
      = some { name := "ai" ++ "$" ++ "sm" ++ "$" ++ "x", kind := "string",
               kindModifiers := "color",
               displayParts := [{ text := ConfigValue.displayString (.str "#00f"),
                                  kind := "markdown" }] } :=
  ⟨(c10_details_token_extraction
      [("sm", { themeKey := "color", tokenValue := .str "#00f" })]
      (some { name := "orig", kind := "k", kindModifiers := "", displayParts := [] })
      "nodollar" "" "" "" { themeKey := "color", tokenValue := .str "#00f" }).1
      (by decide),
   (c10_details_token_extraction
      [("sm", { themeKey := "color", tokenValue := .str "#00f" })]
      (some { name := "orig", kind := "k", kindModifiers := "", displayParts := [] })
      "" "ai" "sm" "x" { themeKey := "color", tokenValue := .str "#00f" }).2.2
      (by decide) (by decide) (by decide) rfl⟩

/-- C9: a property assignment whose value is the empty string literal is
treated as if the value text were absent: the diagnostic-message rewrite
falls back to the generic grid-values message, and the code-fix generator
offers no synthesized fix, returning the host's fixes. -/
theorem c9_empty_literal_treated_absent
    (codec : Codec) (config : Config) (sourceFile : Node)
    (s e ns ne vs ve : Nat) (raw praw p : String) (parts : PropertyParts)
    (original : List Diagnostic) (i : Nat)
    (host : HostService) (fileName : String) (start stop : Nat)
    (errorCodes : List Nat) (sf n nm2 : Node) (ps pe ws we : Nat) (raw2 : String)
    (hparse : codec.tokenPropertySafeParse p = true)
    (hdecode : codec.getTokenPropertyParts p config = some parts)
    (hfind : original.findIdx?
        (fun d => d.code == INVALID_VALUE_ERROR_CODE && d.start == some s) = some i)
    (hsf : host.getSourceFile fileName = some sf)
    (hfound : findNodeAtPosition sf start
        = some (n, some (.propAssign ps pe nm2 (.strLit ws we "" raw2)))) :
    diagStep codec config sourceFile
        (.propAssign s e (.strLit ns ne p praw) (.strLit vs ve "" raw)) original
      = List.modify (fun d => { d with messageText :=
          "Grid values are not assignable to '" ++ p ++ "'." }) i original
    ∧ tokenamiGetCodeFixesAtPosition codec host fileName start stop errorCodes
      = host.getCodeFixesAtPosition fileName start stop errorCodes := by
  constructor
  · unfold diagStep
    simp [hparse, hdecode, hfind, Node.litText]
  · unfold tokenamiGetCodeFixesAtPosition
    cases hc : errorCodes.contains INVALID_VALUE_ERROR_CODE with
    | false => simp
    | true => simp [hsf, hfound, Node.litText]

/-- C9 witness: concrete run on the value `""`: the host diagnostic's message
becomes the grid-values message and the code-fix call passes through. -/
theorem c9_empty_literal_treated_absent_witness :
    diagStep specCodec
        { theme := [], responsive := [("sm", "Small")], selectors := [] }
        (.plain 0 20 []) (.propAssign 1 14 (.strLit 1 8 "ai$sm" "\"ai$sm\"") (.strLit 10 12 "" "\"\""))
        [{ file := none, start := some 1, length := some 13, messageText := "msg",
           category := .error, code := 2322 }]
      = List.modify (fun d => { d with messageText :=
          "Grid values are not assignable to '" ++ "ai$sm" ++ "'." }) 0
          [{ file := none, start := some 1, length := some 13, messageText := "msg",
             category := .error, code := 2322 }]
    ∧ tokenamiGetCodeFixesAtPosition specCodec
        { getSemanticDiagnostics := fun _ => [],
          getSourceFile := fun _ => some
            (.plain 0 20 [.propAssign 1 12 (.strLit 1 4 "p" "\"p\"") (.strLit 6 8 "" "\"\"")]),
          getCodeFixesAtPosition := fun _ _ _ _ =>
            [{ description := "host fix", fixName := "hostFix", changes := [] }],
          getCompletionsAtPosition := fun _ _ => none,
          getCompletionEntryDetails := fun _ _ _ => none }
        "f.ts" 2 3 [2322]
      = [{ description := "host fix", fixName := "hostFix", changes := [] }] :=
  c9_empty_literal_treated_absent specCodec
    { theme := [], responsive := [("sm", "Small")], selectors := [] }
    (.plain 0 20 []) 1 14 1 8 10 12 "\"\"" "\"ai$sm\"" "ai$sm"
    { selector := none, responsive := some "sm", cssProperty := "ai" }
    [{ file := none, start := some 1, length := some 13, messageText := "msg",
       category := .error, code := 2322 }] 0
    { getSemanticDiagnostics := fun _ => [],
      getSourceFile := fun _ => some
        (.plain 0 20 [.propAssign 1 12 (.strLit 1 4 "p" "\"p\"") (.strLit 6 8 "" "\"\"")]),
      getCodeFixesAtPosition := fun _ _ _ _ =>
        [{ description := "host fix", fixName := "hostFix", changes := [] }],
      getCompletionsAtPosition := fun _ _ => none,
      getCompletionEntryDetails := fun _ _ _ => none }
    "f.ts" 2 3 [2322]
    (.plain 0 20 [.propAssign 1 12 (.strLit 1 4 "p" "\"p\"") (.strLit 6 8 "" "\"\"")])
    (.strLit 1 4 "p" "\"p\"") (.strLit 1 4 "p" "\"p\"") 1 12 6 8 "\"\""
    rfl rfl rfl rfl rfl

/-- C1 counterexample: on a file containing the assignment
`"ai$sm": "red"` (name node width 7, assignment node width 14) with selector
`sm` absent from the config and a host returning zero diagnostics,
`getSemanticDiagnostics` appends one diagnostic with code 50000 whose length
is the assignment node's width 14 — it does not span the property-name node. -/
theorem c1_counterexample :
    (tokenamiGetSemanticDiagnostics specCodec
        { theme := [], responsive := [], selectors := [] }
        { getSemanticDiagnostics := fun _ => [],
          getSourceFile := fun _ => some (.plain 0 17
            [.propAssign 1 15 (.strLit 1 8 "ai$sm" "\"ai$sm\"") (.strLit 10 15 "red" "\"red\"")]),
          getCodeFixesAtPosition := fun _ _ _ _ => [],
          getCompletionsAtPosition := fun _ _ => none,
          getCompletionEntryDetails := fun _ _ _ => none }
        "f.ts").map (fun d => (d.start, d.length, d.code))
      = [(some 1, some 14, 50000)]
    ∧ (Node.strLit 1 8 "ai$sm" "\"ai$sm\"").getWidth = 7
    ∧ ¬ ((some 14 : Option Nat) = some (Node.strLit 1 8 "ai$sm" "\"ai$sm\"").getWidth) :=
  ⟨rfl, rfl, by decide⟩

/-- C1 (amended): for every property assignment node whose name is a string
literal satisfying the structural predicate and whose decode against the
config is absent, the visitor appends exactly one new diagnostic — category
Error, fixed code 50000 (distinct from the invalid-value code 2322), message
`Invalid property '<name>'. Selector not found in theme.` — spanning the
whole property-assignment node (its start and width), not just the
property-name node; earlier diagnostics keep their count and positions. -/
theorem c1_selector_not_found_appended
    (codec : Codec) (config : Config) (sourceFile : Node)
    (s e ns ne : Nat) (praw p : String) (v : Node)
    (original : List Diagnostic)
    (hparse : codec.tokenPropertySafeParse p = true)
    (hdecode : codec.getTokenPropertyParts p config = none) :
    ∃ rewritten : List Diagnostic,
      diagStep codec config sourceFile (.propAssign s e (.strLit ns ne p praw) v) original
        = rewritten ++
          [{ file := some sourceFile,
             start := some (Node.propAssign s e (.strLit ns ne p praw) v).getStart,
             length := some (Node.propAssign s e (.strLit ns ne p praw) v).getWidth,
             messageText := "Invalid property '" ++ p ++ "'. Selector not found in theme.",
             category := .error, code := INVALID_SELECTOR_ERROR_CODE }]
      ∧ rewritten.length = original.length
      ∧ INVALID_SELECTOR_ERROR_CODE ≠ INVALID_VALUE_ERROR_CODE := by
  unfold diagStep
  simp only [Node.litText, hparse, hdecode, Option.isNone_none, if_true,
    Node.getStart, Node.getEnd, Node.getWidth]
  rw [findIdx?_append_singleton_of_false
    (fun d : Diagnostic => d.code == INVALID_VALUE_ERROR_CODE && d.start == some s)
    { file := some sourceFile, start := some s, length := some (e - s),
      messageText := "Invalid property '" ++ p ++ "'. Selector not found in theme.",
      category := .error, code := INVALID_SELECTOR_ERROR_CODE }
    original rfl]
  cases hidx : original.findIdx?
      (fun d => d.code == INVALID_VALUE_ERROR_CODE && d.start == some s) with
  | none => exact ⟨original, rfl, rfl, by decide⟩
  | some i =>
    refine ⟨_, modify_append_left _ original _ i (findIdx?_lt_length hidx),
      List.length_modify _ _ _, by decide⟩

/-- C1 witness: the amended theorem applied at the counterexample's input. -/
theorem c1_selector_not_found_appended_witness :
    ∃ rewritten : List Diagnostic,
      diagStep specCodec { theme := [], responsive := [], selectors := [] }
          (.plain 0 17 [.propAssign 1 15 (.strLit 1 8 "ai$sm" "\"ai$sm\"") (.strLit 10 15 "red" "\"red\"")])
          (.propAssign 1 15 (.strLit 1 8 "ai$sm" "\"ai$sm\"") (.strLit 10 15 "red" "\"red\""))
          []
        = rewritten ++
          [{ file := some (.plain 0 17
               [.propAssign 1 15 (.strLit 1 8 "ai$sm" "\"ai$sm\"") (.strLit 10 15 "red" "\"red\"")]),
             start := some (Node.propAssign 1 15 (.strLit 1 8 "ai$sm" "\"ai$sm\"")
               (.strLit 10 15 "red" "\"red\"")).getStart,
             length := some (Node.propAssign 1 15 (.strLit 1 8 "ai$sm" "\"ai$sm\"")
               (.strLit 10 15 "red" "\"red\"")).getWidth,
             messageText := "Invalid property '" ++ "ai$sm" ++ "'. Selector not found in theme.",
             category := .error, code := INVALID_SELECTOR_ERROR_CODE }]
      ∧ rewritten.length = ([] : List Diagnostic).length
      ∧ INVALID_SELECTOR_ERROR_CODE ≠ INVALID_VALUE_ERROR_CODE :=
  c1_selector_not_found_appended specCodec
    { theme := [], responsive := [], selectors := [] }
    (.plain 0 17 [.propAssign 1 15 (.strLit 1 8 "ai$sm" "\"ai$sm\"") (.strLit 10 15 "red" "\"red\"")])
    1 15 1 8 "\"ai$sm\"" "ai$sm" (.strLit 10 15 "red" "\"red\"") []
    rfl rfl

/-- C6 counterexample: the value side is a string literal whose text is the
empty string; the claim requires the replaced message to name the
string-literal value, but the code produces the generic grid-values message. -/
theorem c6_counterexample :
    ((tokenamiGetSemanticDiagnostics specCodec
        { theme := [], responsive := [("sm", "Small")], selectors := [] }
        { getSemanticDiagnostics := fun _ =>
            [{ file := none, start := some 1, length := some 13, messageText := "msg",
               category := .error, code := 2322 }],
          getSourceFile := fun _ => some (.plain 0 16
            [.propAssign 1 14 (.strLit 1 8 "ai$sm" "\"ai$sm\"") (.strLit 10 12 "" "\"\"")]),
          getCodeFixesAtPosition := fun _ _ _ _ => [],
          getCompletionsAtPosition := fun _ _ => none,
          getCompletionEntryDetails := fun _ _ _ => none } "f.ts").map
        (fun d => d.messageText))
      = ["Grid values are not assignable to 'ai$sm'."]
    ∧ (Node.strLit 10 12 "" "\"\"").isStringLiteral = true
    ∧ ¬ ("Grid values are not assignable to 'ai$sm'."
        = "Value '' is not assignable to 'ai$sm'. Use theme value or mark arbitrary with '"
          ++ specCodec.arbitraryValue "" ++ "'") :=
  ⟨rfl, rfl, by decide⟩

/-- C6 (amended): for every candidate token-property assignment node, the
visitor replaces the message of only the first diagnostic (by list order)
whose code is the invalid-value code 2322 and whose start equals the node's
start; the replacement names the string-literal value and its arbitrary-value
suggestion when the value side is a non-empty string literal, and is
otherwise the generic grid-values message; all other fields of that
diagnostic, and all other diagnostics, are unchanged (up to the possibly
appended selector-not-found diagnostic). -/
theorem c6_first_match_message_rewrite
    (codec : Codec) (config : Config) (sourceFile : Node)
    (s e ns ne : Nat) (praw p : String) (v : Node)
    (original : List Diagnostic) (i : Nat)
    (hparse : codec.tokenPropertySafeParse p = true)
    (hfind : original.findIdx?
        (fun d => d.code == INVALID_VALUE_ERROR_CODE && d.start == some s) = some i) :
    ∃ appended : List Diagnostic,
      diagStep codec config sourceFile (.propAssign s e (.strLit ns ne p praw) v) original
        = List.modify (fun d => { d with messageText :=
            match v.litText with
            | some tv =>
              if tv == "" then "Grid values are not assignable to '" ++ p ++ "'."
              else "Value '" ++ tv ++ "' is not assignable to '" ++ p
                ++ "'. Use theme value or mark arbitrary with '"
                ++ codec.arbitraryValue tv ++ "'"
            | none => "Grid values are not assignable to '" ++ p ++ "'." }) i original
          ++ appended
      ∧ (appended = []
         ∨ (appended.length = 1 ∧ ∀ a ∈ appended, a.code = INVALID_SELECTOR_ERROR_CODE)) := by
  unfold diagStep
  cases hdec : codec.getTokenPropertyParts p config with
  | some parts =>
    simp only [Node.litText, hparse, hdec, if_true, Option.isNone_some,
      Bool.false_eq_true, if_false, hfind]
    exact ⟨[], by simp, Or.inl rfl⟩
  | none =>
    simp only [Node.litText, hparse, hdec, if_true, Option.isNone_none]
    rw [findIdx?_append_singleton_of_false
      (fun d : Diagnostic => d.code == INVALID_VALUE_ERROR_CODE && d.start == some s)
      { file := some sourceFile, start := some s, length := some (e - s),
        messageText := "Invalid property '" ++ p ++ "'. Selector not found in theme.",
        category := .error, code := INVALID_SELECTOR_ERROR_CODE }
      original rfl, hfind]
    refine ⟨[⟨some sourceFile, some s, some (e - s),
      "Invalid property '" ++ p ++ "'. Selector not found in theme.",
      .error, INVALID_SELECTOR_ERROR_CODE⟩],
      ?_, Or.inr (by simp [INVALID_SELECTOR_ERROR_CODE])⟩
    dsimp only
    rw [modify_append_left _ original _ i (findIdx?_lt_length hfind)]

/-- C6 witness: a concrete non-empty literal value `red` gets the
value-naming message on the first matching diagnostic. -/
theorem c6_first_match_message_rewrite_witness :
    ∃ appended : List Diagnostic,
      diagStep specCodec { theme := [], responsive := [("sm", "Small")], selectors := [] }
          (.plain 0 17 [])
          (.propAssign 1 15 (.strLit 1 8 "ai$sm" "\"ai$sm\"") (.strLit 10 15 "red" "\"red\""))
          [{ file := none, start := some 1, length := some 14, messageText := "msg",
             category := .error, code := 2322 }]
        = List.modify (fun d => { d with messageText :=
            match (Node.strLit 10 15 "red" "\"red\"").litText with
            | some tv =>
              if tv == "" then "Grid values are not assignable to '" ++ "ai$sm" ++ "'."
              else "Value '" ++ tv ++ "' is not assignable to '" ++ "ai$sm"
                ++ "'. Use theme value or mark arbitrary with '"
                ++ specCodec.arbitraryValue tv ++ "'"
            | none => "Grid values are not assignable to '" ++ "ai$sm" ++ "'." }) 0
            [{ file := none, start := some 1, length := some 14, messageText := "msg",
               category := .error, code := 2322 }]
          ++ appended
      ∧ (appended = []
         ∨ (appended.length = 1 ∧ ∀ a ∈ appended, a.code = INVALID_SELECTOR_ERROR_CODE)) :=
  c6_first_match_message_rewrite specCodec
    { theme := [], responsive := [("sm", "Small")], selectors := [] }
    (.plain 0 17 []) 1 15 1 8 "\"ai$sm\"" "ai$sm" (.strLit 10 15 "red" "\"red\"")
    [{ file := none, start := some 1, length := some 14, messageText := "msg",
       category := .error, code := 2322 }] 0
    rfl rfl

/-- C5: when the error codes include the invalid-value code 2322 and the
smallest node covering the start position has a property-assignment parent
whose value is a non-empty string literal, `getCodeFixesAtPosition` returns
exactly one fix action — description naming the replacement text, fix name
`replaceWithArbitrary`, one text-span edit covering the value node — and the
host's fixes are not merged into it; whenever that condition fails, the
host's fixes are returned unchanged. -/
theorem c5_single_fix_or_pass_through
    (codec : Codec) (host : HostService) (fileName : String)
    (start stop : Nat) (errorCodes : List Nat) :
    (∀ (sourceFile n nm : Node) (ps pe vs ve : Nat) (text raw : String),
       errorCodes.contains INVALID_VALUE_ERROR_CODE = true →
       host.getSourceFile fileName = some sourceFile →
       findNodeAtPosition sourceFile start
         = some (n, some (.propAssign ps pe nm (.strLit vs ve text raw))) →
       text ≠ "" →
       tokenamiGetCodeFixesAtPosition codec host fileName start stop errorCodes
         = [{ description := "Use " ++ wordShapeReplace raw (codec.arbitraryValue text)
                ++ " to mark as arbitrary",
              fixName := "replaceWithArbitrary",
              changes := [{ fileName := fileName,
                            textChanges := [{ span := createTextSpanFromNode (.strLit vs ve text raw),
                                              newText := wordShapeReplace raw (codec.arbitraryValue text) }] }] }])
    ∧ ((¬ ∃ (sourceFile n nm : Node) (ps pe vs ve : Nat) (text raw : String),
          errorCodes.contains INVALID_VALUE_ERROR_CODE = true ∧
          host.getSourceFile fileName = some sourceFile ∧
          findNodeAtPosition sourceFile start
            = some (n, some (.propAssign ps pe nm (.strLit vs ve text raw))) ∧
          text ≠ "") →
        tokenamiGetCodeFixesAtPosition codec host fileName start stop errorCodes
          = host.getCodeFixesAtPosition fileName start stop errorCodes) := by
  constructor
  · intro sourceFile n nm ps pe vs ve text raw hcode hsf hfnd htext
    have hbne : (text != "") = true := by simpa using htext
    have hmem : INVALID_VALUE_ERROR_CODE ∈ errorCodes := by simpa using hcode
    unfold tokenamiGetCodeFixesAtPosition
    simp [hcode, hmem, hsf, hfnd, hbne, Node.litText, Node.getText,
      createTextSpanFromNode, Node.getStart, Node.getEnd]
  · intro hno
    unfold tokenamiGetCodeFixesAtPosition
    cases hcode : errorCodes.contains INVALID_VALUE_ERROR_CODE with
    | false => simp
    | true =>
      cases hsf : host.getSourceFile fileName with
      | none => simp
      | some sf =>
        cases hfnd : findNodeAtPosition sf start with
        | none => simp [hfnd]
        | some np =>
          rcases np with ⟨n, par⟩
          cases par with
          | none => simp [hfnd]
          | some parent =>
            cases parent with
            | strLit a b c d => simp [hfnd]
            | plain a b cs => simp [hfnd]
            | propAssign ps pe nm v =>
              cases v with
              | propAssign a b c d => simp [hfnd, Node.litText]
              | plain a b cs => simp [hfnd, Node.litText]
              | strLit vs ve text raw =>
                cases hti : (text == "") with
                | true =>
                  have : text = "" := eq_of_beq hti
                  simp [hfnd, Node.litText, this]
                | false =>
                  exact absurd
                    ⟨sf, n, nm, ps, pe, vs, ve, text, raw, hcode, hsf, hfnd,
                      beq_eq_false_iff_ne.mp hti⟩ hno

/-- C5 witness: on `"p": 'red'` with a 2322 error code, exactly the computed
fix is returned and the host's fix is dropped. -/
theorem c5_single_fix_or_pass_through_witness :
    tokenamiGetCodeFixesAtPosition specCodec
      { getSemanticDiagnostics := fun _ => [],
        getSourceFile := fun _ => some (.plain 0 13
          [.propAssign 1 11 (.strLit 1 4 "p" "\"p\"") (.strLit 6 11 "red" "'red'")]),
        getCodeFixesAtPosition := fun _ _ _ _ =>
          [{ description := "host fix", fixName := "hostFix", changes := [] }],
        getCompletionsAtPosition := fun _ _ => none,
        getCompletionEntryDetails := fun _ _ _ => none }
      "f.ts" 2 3 [2322]
    = [{ description := "Use " ++ wordShapeReplace "'red'" (specCodec.arbitraryValue "red")
           ++ " to mark as arbitrary",
         fixName := "replaceWithArbitrary",
         changes := [{ fileName := "f.ts",
                       textChanges := [{ span := createTextSpanFromNode (.strLit 6 11 "red" "'red'"),
                                         newText := wordShapeReplace "'red'" (specCodec.arbitraryValue "red") }] }] }] :=
  (c5_single_fix_or_pass_through specCodec
    { getSemanticDiagnostics := fun _ => [],
      getSourceFile := fun _ => some (.plain 0 13
        [.propAssign 1 11 (.strLit 1 4 "p" "\"p\"") (.strLit 6 11 "red" "'red'")]),
      getCodeFixesAtPosition := fun _ _ _ _ =>
        [{ description := "host fix", fixName := "hostFix", changes := [] }],
      getCompletionsAtPosition := fun _ _ => none,
      getCompletionEntryDetails := fun _ _ _ => none }
    "f.ts" 2 3 [2322]).1
    (.plain 0 13 [.propAssign 1 11 (.strLit 1 4 "p" "\"p\"") (.strLit 6 11 "red" "'red'")])
    (.strLit 1 4 "p" "\"p\"") (.strLit 1 4 "p" "\"p\"") 1 11 6 11 "red" "'red'"
    rfl rfl rfl (by decide)

/-- C3 counterexample: the value literal `'a b'` does not match the bare
word-shape pattern, yet a synthesized fix IS offered (with the text left
unmodified), contradicting the claim that no fix is offered. -/
theorem c3_counterexample :
    wordShapeSplit "'a b'" = none
    ∧ tokenamiGetCodeFixesAtPosition specCodec
        { getSemanticDiagnostics := fun _ => [],
          getSourceFile := fun _ => some (.plain 0 13
            [.propAssign 1 11 (.strLit 1 4 "p" "\"p\"") (.strLit 6 11 "a b" "'a b'")]),
          getCodeFixesAtPosition := fun _ _ _ _ => [],
          getCompletionsAtPosition := fun _ _ => none,
          getCompletionEntryDetails := fun _ _ _ => none }
        "f.ts" 2 3 [2322]
      = [{ description := "Use 'a b' to mark as arbitrary",
           fixName := "replaceWithArbitrary",
           changes := [{ fileName := "f.ts",
                         textChanges := [{ span := { start := 6, length := 5 },
                                           newText := "'a b'" }] }] }]
    ∧ [{ description := "Use 'a b' to mark as arbitrary",
         fixName := "replaceWithArbitrary",
         changes := [{ fileName := "f.ts",
                       textChanges := [{ span := { start := 6, length := 5 },
                                         newText := "'a b'" }] }] }]
      ≠ ([] : List CodeFixAction) :=
  ⟨rfl, rfl, by decide⟩

/-- C3 (amended): when the error codes include 2322 and the covering node's
parent is a property assignment with a non-empty string-literal value whose
source text does not match the bare word-shape pattern, a synthesized fix is
still offered; its replacement text is the literal's source text left
unmodified (a self-replacing edit). -/
theorem c3_nonmatching_literal_still_fixed
    (codec : Codec) (host : HostService) (fileName : String)
    (start stop : Nat) (errorCodes : List Nat)
    (sourceFile n nm : Node) (ps pe vs ve : Nat) (text raw : String)
    (hcode : errorCodes.contains INVALID_VALUE_ERROR_CODE = true)
    (hsf : host.getSourceFile fileName = some sourceFile)
    (hfound : findNodeAtPosition sourceFile start
      = some (n, some (.propAssign ps pe nm (.strLit vs ve text raw))))
    (htext : text ≠ "")
    (hshape : wordShapeSplit raw = none) :
    tokenamiGetCodeFixesAtPosition codec host fileName start stop errorCodes
      = [{ description := "Use " ++ raw ++ " to mark as arbitrary",
           fixName := "replaceWithArbitrary",
           changes := [{ fileName := fileName,
                         textChanges := [{ span := createTextSpanFromNode (.strLit vs ve text raw),
                                           newText := raw }] }] }] := by
  have hrepl : wordShapeReplace raw (codec.arbitraryValue text) = raw := by
    unfold wordShapeReplace
    rw [hshape]
  have := (c5_single_fix_or_pass_through codec host fileName start stop errorCodes).1
    sourceFile n nm ps pe vs ve text raw hcode hsf hfound htext
  rw [this, hrepl]

/-- C3 witness: the amended theorem applied at the counterexample's input. -/
theorem c3_nonmatching_literal_still_fixed_witness :
    tokenamiGetCodeFixesAtPosition specCodec
        { getSemanticDiagnostics := fun _ => [],
          getSourceFile := fun _ => some (.plain 0 13
            [.propAssign 1 11 (.strLit 1 4 "p" "\"p\"") (.strLit 6 11 "a b" "'a b'")]),
          getCodeFixesAtPosition := fun _ _ _ _ => [],
          getCompletionsAtPosition := fun _ _ => none,
          getCompletionEntryDetails := fun _ _ _ => none }
        "f.ts" 2 3 [2322]
      = [{ description := "Use " ++ "'a b'" ++ " to mark as arbitrary",
           fixName := "replaceWithArbitrary",
           changes := [{ fileName := "f.ts",
                         textChanges := [{ span := createTextSpanFromNode (.strLit 6 11 "a b" "'a b'"),
                                           newText := "'a b'" }] }] }] :=
  c3_nonmatching_literal_still_fixed specCodec
    { getSemanticDiagnostics := fun _ => [],
      getSourceFile := fun _ => some (.plain 0 13
        [.propAssign 1 11 (.strLit 1 4 "p" "\"p\"") (.strLit 6 11 "a b" "'a b'")]),
      getCodeFixesAtPosition := fun _ _ _ _ => [],
      getCompletionsAtPosition := fun _ _ => none,
      getCompletionEntryDetails := fun _ _ _ => none }
    "f.ts" 2 3 [2322]
    (.plain 0 13 [.propAssign 1 11 (.strLit 1 4 "p" "\"p\"") (.strLit 6 11 "a b" "'a b'")])
    (.strLit 1 4 "p" "\"p\"") (.strLit 1 4 "p" "\"p\"") 1 11 6 11 "a b" "'a b'"
    rfl rfl rfl (by decide) rfl

/-- C7 counterexample: the entry name `ai$sm` satisfies the structural
predicate but fails to decode against a config with no `sm`, yet it still
receives the ahead-sorting `$` prefix marker: the marker is not conditional
on a successful decode. -/
theorem c7_counterexample :
    specGetTokenPropertyParts "ai$sm"
        { theme := [], responsive := [], selectors := [] } = none
    ∧ specTokenPropertySafeParse "ai$sm" = true
    ∧ ((processEntry specCodec { theme := [], responsive := [], selectors := [] } []
        { name := "ai$sm", sortText := "zz", kindModifiers := none,
          insertText := none, labelDetails := none }).2).sortText = "$ai$sm"
    ∧ ("$ai$sm" : String) ≠ "ai$sm" :=
  ⟨rfl, rfl, rfl, by decide⟩

/-- C7 (amended): every entry's sort key is set to its own name by default;
an entry receives the ahead-sorting `$` prefix marker exactly when its name
satisfies the structural token-property predicate, whether or not it decodes
against the config; and when it does decode with a responsive variant whose
configured description is non-empty (and the entry is not also rewritten as
a token value), that description is attached as label detail. -/
theorem c7_sort_marker_on_parse
    (codec : Codec) (config : Config) (m : TokenMap) (entry : CompletionEntry) :
    (codec.tokenPropertySafeParse entry.name = false →
      ((processEntry codec config m entry).2).sortText = entry.name)
    ∧ (codec.tokenPropertySafeParse entry.name = true →
      ((processEntry codec config m entry).2).sortText = "$" ++ entry.name)
    ∧ (∀ (parts : PropertyParts) (r d : String),
        codec.tokenPropertySafeParse entry.name = true →
        codec.getTokenPropertyParts entry.name config = some parts →
        parts.responsive = some r → r ≠ "" →
        lookupAssoc config.responsive r = some d → d ≠ "" →
        codec.tokenValueSafeParse entry.name = false →
        ((processEntry codec config m entry).2).labelDetails
          = some { detail := "", description := d }) := by
  refine ⟨?_, ?_, ?_⟩
  · intro hp
    unfold processEntry
    simp only [hp, Bool.false_eq_true, if_false]
    repeat' split
    all_goals simp
  · intro hp
    unfold processEntry
    simp only [hp, if_true]
    repeat' split
    all_goals simp
  · intro parts r d hp hdec hresp hr hlk hd hv
    have hrb : (r == "") = false := by simpa using hr
    have hdb : (d == "") = false := by simpa using hd
    unfold processEntry
    simp [hp, hdec, hresp, hrb, hlk, hdb, hv]

/-- C7 witness: the amended theorem applied at concrete entries: a
non-candidate keeps its own name as sort key, a candidate gets the marker,
and a decodable candidate with responsive variant `sm` gets the configured
description attached. -/
theorem c7_sort_marker_on_parse_witness :
    ((processEntry specCodec { theme := [], responsive := [("sm", "Small")], selectors := [] } []
        { name := "a$b$c", sortText := "zz", kindModifiers := none,
          insertText := none, labelDetails := none }).2).sortText = "a$b$c"
    ∧ ((processEntry specCodec { theme := [], responsive := [("sm", "Small")], selectors := [] } []
        { name := "ai$sm", sortText := "zz", kindModifiers := none,
          insertText := none, labelDetails := none }).2).sortText = "$" ++ "ai$sm"
    ∧ ((processEntry specCodec { theme := [], responsive := [("sm", "Small")], selectors := [] } []
        { name := "ai$sm", sortText := "zz", kindModifiers := none,
          insertText := none, labelDetails := none }).2).labelDetails
      = some { detail := "", description := "Small" } :=
  ⟨(c7_sort_marker_on_parse specCodec
      { theme := [], responsive := [("sm", "Small")], selectors := [] } []
      { name := "a$b$c", sortText := "zz", kindModifiers := none,
        insertText := none, labelDetails := none }).1 rfl,
   (c7_sort_marker_on_parse specCodec
      { theme := [], responsive := [("sm", "Small")], selectors := [] } []
      { name := "ai$sm", sortText := "zz", kindModifiers := none,
        insertText := none, labelDetails := none }).2.1 rfl,
   (c7_sort_marker_on_parse specCodec
      { theme := [], responsive := [("sm", "Small")], selectors := [] } []
      { name := "ai$sm", sortText := "zz", kindModifiers := none,
        insertText := none, labelDetails := none }).2.2
      { selector := none, responsive := some "sm", cssProperty := "ai" } "sm" "Small"
      rfl rfl rfl (by decide) rfl (by decide) rfl⟩

/-- C4 counterexample: `config.theme.color.blue` is present but is the empty
string, which is falsy: the claim requires the cache record to be written
whenever the theme value is present, but the code writes nothing. -/
theorem c4_counterexample :
    Config.themeLookup
        { theme := [("color", [("blue", .str "")])], responsive := [], selectors := [] }
        "color" "blue" = some (.str "")
    ∧ specGetTokenValueParts "$color-blue" = some { themeKey := "color", token := "blue" }
    ∧ mapGet ((tokenamiGetCompletionsAtPosition specCodec
        { theme := [("color", [("blue", .str "")])], responsive := [], selectors := [] }
        { getSemanticDiagnostics := fun _ => [],
          getSourceFile := fun _ => none,
          getCodeFixesAtPosition := fun _ _ _ _ => [],
          getCompletionsAtPosition := fun _ _ => some
            [{ name := "$color-blue", sortText := "", kindModifiers := none,
               insertText := none, labelDetails := none }],
          getCompletionEntryDetails := fun _ _ _ => none }
        [] "f.ts" 0).1) "blue" = none :=
  ⟨rfl, rfl, rfl⟩

/-- C4 (amended): for every completion entry whose name is a valid token
value decoding to `{themeKey, token}` (token nonempty) such that
`config.theme[themeKey][token]` is present AND truthy (not the empty string
or zero), the entry-rewrite step records `token -> {themeKey, tokenValue}` in
the session cache, and any subsequent detail request whose entry name's
`$`-extracted short token equals that token returns the synthesized record —
name = the request's entry name, kind `string`, kind-modifier = the cached
theme key, display text = the cached value rendered as text — discarding the
host's detail result. -/
theorem c4_cache_then_details
    (codec : Codec) (config : Config) (m : TokenMap) (entry : CompletionEntry)
    (tk tok : String) (tv : ConfigValue)
    (hv : codec.tokenValueSafeParse entry.name = true)
    (hparts : codec.getTokenValueParts entry.name = some { themeKey := tk, token := tok })
    (hlookup : config.themeLookup tk tok = some tv)
    (htruthy : tv.truthy = true)
    (htok : tok ≠ "") :
    mapGet ((processEntry codec config m entry).1) tok
      = some { themeKey := tk, tokenValue := tv }
    ∧ ∀ (host : HostService) (fileName entryName : String) (position : Nat),
        (splitEntryName entryName)[1]? = some tok →
        tokenamiGetCompletionEntryDetails host ((processEntry codec config m entry).1)
            fileName position entryName
          = some { name := entryName, kind := "string", kindModifiers := tk,
                   displayParts := [{ text := tv.displayString, kind := "markdown" }] } := by
  have hcache : mapGet ((processEntry codec config m entry).1) tok
      = some { themeKey := tk, tokenValue := tv } := by
    unfold processEntry
    simp only [hv, hparts, hlookup, htruthy, if_true]
    exact mapGet_mapSet_self m tok { themeKey := tk, tokenValue := tv }
  refine ⟨hcache, ?_⟩
  intro host fileName entryName position hsplit
  have htb : (tok == "") = false := by simpa using htok
  unfold tokenamiGetCompletionEntryDetails detailsStep
  simp [hsplit, htb, hcache]

/-- C4 witness: the amended theorem applied to the entry `$color-blue` with
theme value `#00f`, then a detail request for `$blue`. -/
theorem c4_cache_then_details_witness :
    mapGet ((processEntry specCodec
        { theme := [("color", [("blue", .str "#00f")])], responsive := [], selectors := [] }
        [] { name := "$color-blue", sortText := "", kindModifiers := none,
             insertText := none, labelDetails := none }).1) "blue"
      = some { themeKey := "color", tokenValue := .str "#00f" }
    ∧ tokenamiGetCompletionEntryDetails
        { getSemanticDiagnostics := fun _ => [],
          getSourceFile := fun _ => none,
          getCodeFixesAtPosition := fun _ _ _ _ => [],
          getCompletionsAtPosition := fun _ _ => none,
          getCompletionEntryDetails := fun _ _ _ => some
            { name := "host", kind := "k", kindModifiers := "", displayParts := [] } }
        ((processEntry specCodec
          { theme := [("color", [("blue", .str "#00f")])], responsive := [], selectors := [] }
          [] { name := "$color-blue", sortText := "", kindModifiers := none,
               insertText := none, labelDetails := none }).1)
        "f.ts" 0 "$blue"
      = some { name := "$blue", kind := "string", kindModifiers := "color",
               displayParts := [{ text := ConfigValue.displayString (.str "#00f"),
                                  kind := "markdown" }] } := by
  have h := c4_cache_then_details specCodec
    { theme := [("color", [("blue", .str "#00f")])], responsive := [], selectors := [] }
    [] { name := "$color-blue", sortText := "", kindModifiers := none,
         insertText := none, labelDetails := none }
    "color" "blue" (.str "#00f") rfl rfl rfl rfl (by decide)
  exact ⟨h.1, h.2
    { getSemanticDiagnostics := fun _ => [],
      getSourceFile := fun _ => none,
      getCodeFixesAtPosition := fun _ _ _ _ => [],
      getCompletionsAtPosition := fun _ _ => none,
      getCompletionEntryDetails := fun _ _ _ => some
        { name := "host", kind := "k", kindModifiers := "", displayParts := [] } }
    "f.ts" "$blue" 0 rfl⟩

end TokenamiPlugin
